/-
Verification of the media-intake and export pipeline of the eduai repository.

The TypeScript sources are shallowly embedded as executable Lean definitions:
  * `src/project/src/utils/imageUtils.ts`    — `validateImageFile`, `processImage`
    (dimension logic), `moderateImage`
  * `src/project/src/utils/storageUtils.ts`  — `processAndUploadFiles`,
    `cleanupObjectUrls`
  * `src/project/src/components/AutoLayout.tsx` — `getSectionPlacement`,
    `handleDrop`
  * the export utilities (`exportToPDF` text skeleton, file naming for
    PDF/PPTX/PNG export)

Modelling conventions:
  * JS strings are Lean `String`s; character-level operations go through
    `String.data` (a `List Char`).  `toLowerCase` is modelled by mapping
    `Char.toLower` (faithful on ASCII, which covers every keyword and
    extension the code compares against).
  * JS numbers are modelled exactly: byte lengths and pixel dimensions as
    `Nat`, arithmetic appearing in user messages as `Int`, and the
    width/height/aspect-ratio arithmetic of `processImage` as `ℚ`
    (`Math.round` becomes `round : ℚ → ℤ`, which also rounds half up).
  * Browser / SDK effects (image decoding, Supabase upload,
    `URL.createObjectURL`) are inputs of the model, collected in an `Env`
    record of oracles; callbacks (`onProgress`/`onComplete`/`onError`) become
    fields of the returned `IntakeResult`.
-/
import Mathlib

namespace EduAI

/-! ## Generic string helpers (JS `String.prototype.includes` and
`toLowerCase` over `List Char`) -/

/-- `isPrefixL need hay` : `need` is a prefix of `hay` (over characters). -/
def isPrefixL : List Char → List Char → Bool
  | [], _ => true
  | _ :: _, [] => false
  | a :: as, b :: bs => a == b && isPrefixL as bs

/-- `hasSub need hay` : `need` occurs as a contiguous substring of `hay`;
this is the semantics of JS `hay.includes(need)`. -/
def hasSub (need : List Char) : List Char → Bool
  | [] => need.isEmpty
  | c :: rest => isPrefixL need (c :: rest) || hasSub need rest

/-- JS `hay.includes(need)` on `String`s. -/
def hasSubstr (hay need : String) : Bool :=
  hasSub need.data hay.data

/-- JS `s.toLowerCase()` (ASCII-faithful). -/
def toLowerStr (s : String) : String :=
  String.mk (s.data.map Char.toLower)

/-- JS `s.startsWith(pre)` on `String`s. -/
def startsWithStr (s pre : String) : Bool :=
  isPrefixL pre.data s.data

theorem isPrefixL_iff (need hay : List Char) :
    isPrefixL need hay = true ↔ ∃ post, hay = need ++ post := by
  induction need generalizing hay with
  | nil => simp [isPrefixL]
  | cons a as ih =>
    cases hay with
    | nil => simp [isPrefixL]
    | cons b bs =>
      simp only [isPrefixL, Bool.and_eq_true, beq_iff_eq, ih, List.cons_append,
        List.cons.injEq]
      constructor
      · rintro ⟨rfl, post, rfl⟩; exact ⟨post, rfl, rfl⟩
      · rintro ⟨post, rfl, rfl⟩; exact ⟨rfl, post, rfl⟩

/-- Sanity of the embedding of JS `includes`: `hasSub need hay` holds exactly
when `hay` decomposes as `pre ++ need ++ post`. -/
theorem hasSub_iff (need hay : List Char) :
    hasSub need hay = true ↔ ∃ pre post, hay = pre ++ need ++ post := by
  induction hay with
  | nil =>
    simp only [hasSub, List.isEmpty_iff]
    constructor
    · rintro rfl; exact ⟨[], [], rfl⟩
    · rintro ⟨pre, post, h⟩
      rcases List.append_eq_nil.mp (List.append_eq_nil.mp h.symm).1 with ⟨-, h2⟩
      exact h2
  | cons c rest ih =>
    simp only [hasSub, Bool.or_eq_true, isPrefixL_iff, ih]
    constructor
    · rintro (⟨post, h⟩ | ⟨pre, post, rfl⟩)
      · exact ⟨[], post, by simpa using h⟩
      · exact ⟨c :: pre, post, rfl⟩
    · rintro ⟨pre, post, h⟩
      cases pre with
      | nil => exact Or.inl ⟨post, by simpa using h⟩
      | cons p ps =>
        simp only [List.cons_append, List.cons.injEq] at h
        exact Or.inr ⟨ps, post, h.2⟩

/-! ## Data model (`MediaFile`, `ProjectData` and friends) -/

/-- A JS `File` as the code observes it: `name`, byte `size`, declared MIME
`type`.  The binary payload itself is irrelevant to every claim. -/
structure SFile where
  name : String
  size : Nat
  type : String
deriving DecidableEq

/-- The `MediaFile` interface shared by `storageUtils.ts`, `AutoLayout.tsx`
and the export utilities.  Optional JS fields become `Option`s. -/
structure MediaFile where
  id : String
  src : String
  width : Nat
  height : Nat
  aspectRatio : ℚ
  caption : Option String := none
  alt : Option String := none
  file : SFile
  uploadProgress : Option Nat := none
  isUploading : Option Bool := none
  cloudUrl : Option String := none
deriving DecidableEq

/-- Result shape of `validateImageFile`. -/
structure ValidationResult where
  isValid : Bool
  error : Option String
deriving DecidableEq

/-- Result shape of `processImage` (dimensions part; the re-encoded `file`
is carried along). -/
structure ProcessedImage where
  file : SFile
  width : Nat
  height : Nat
  aspectRatio : ℚ
deriving DecidableEq

/-- Result shape of `moderateImage`. -/
structure ModerationResult where
  approved : Bool
  reason : Option String
deriving DecidableEq

/-- One `{title, content}` report section. -/
structure PSection where
  title : String
  content : String
deriving DecidableEq

/-- The `ProjectData` interface of the export utilities. -/
structure ProjectData where
  title : String
  abstract : String
  sections : List PSection
  citations : List String
deriving DecidableEq

/-! ## `imageUtils.ts` -/

/-- `ALLOWED_MIME_TYPES` from `imageUtils.ts`. -/
def ALLOWED_MIME_TYPES : List String :=
  ["image/jpeg", "image/jpg", "image/png", "image/webp"]

/-- `MAX_FILE_SIZE = 10 * 1024 * 1024` from `imageUtils.ts`. -/
def MAX_FILE_SIZE : Nat := 10 * 1024 * 1024

/-- `MAX_WIDTH = 2000` from `imageUtils.ts`. -/
def MAX_WIDTH : Nat := 2000

/-- `suspiciousExtensions` from `imageUtils.ts`. -/
def suspiciousExtensions : List String :=
  [".exe", ".bat", ".cmd", ".scr", ".com", ".pif"]

/-- `validateImageFile` from `imageUtils.ts` (lines 25–54): size check,
then MIME-type check, then suspicious-extension check on the lower-cased
name, in that order. -/
def validateImageFile (file : SFile) : ValidationResult :=
  if file.size > MAX_FILE_SIZE then
    { isValid := false
      error := some ("File \"" ++ file.name ++ "\" is too large. Maximum size is 10MB.") }
  else if !(ALLOWED_MIME_TYPES.contains file.type) then
    { isValid := false
      error := some ("File \"" ++ file.name ++
        "\" has unsupported format. Only JPG, PNG, and WebP are allowed.") }
  else if suspiciousExtensions.any (fun ext => hasSubstr (toLowerStr file.name) ext) then
    { isValid := false
      error := some ("File \"" ++ file.name ++
        "\" appears to be suspicious and cannot be uploaded.") }
  else
    { isValid := true, error := none }

/-- The dimension logic of `processImage` from `imageUtils.ts` (lines
63–105), for an image decoding with natural width `W` and height `H`:
`aspectRatio = W / H`; if `W > MAX_WIDTH` the new dimensions are
`MAX_WIDTH × round (MAX_WIDTH / aspectRatio)`, else they are unchanged, and
the returned `aspectRatio` is `newWidth / newHeight`.  JS float arithmetic
is modelled exactly over `ℚ`; `Math.round` is `round` (both round half up).
The re-encoded file keeps the original `name` and `type`; its new byte size
is whatever the canvas encoder produced, supplied here as `newSize`. -/
def processImage (file : SFile) (W H newSize : Nat) : ProcessedImage :=
  let aspectRatio : ℚ := (W : ℚ) / (H : ℚ)
  let p : Nat × Nat :=
    if W > MAX_WIDTH then (MAX_WIDTH, (round ((MAX_WIDTH : ℚ) / aspectRatio)).toNat)
    else (W, H)
  { file := { name := file.name, size := newSize, type := file.type }
    width := p.1
    height := p.2
    aspectRatio := (p.1 : ℚ) / (p.2 : ℚ) }

/-- `moderateImage` from `imageUtils.ts` (lines 125–140): the stub
unconditionally approves. -/
def moderateImage (_file : SFile) : ModerationResult :=
  { approved := true, reason := none }

/-! ## `storageUtils.ts` -/

/-- The browser / SDK effects `processAndUploadFiles` depends on, supplied
as oracles:
  * `now` — `Date.now().toString()`, the common prefix of the generated ids;
  * `cloudAvailable` — whether the Supabase client is configured
    (`isCloudStorageAvailable()`);
  * `proc` — the outcome of `await processImage(file)` (`none` models a
    rejected promise: decode failure or empty encode);
  * `upload` — the outcome of `await uploadFileToCloud(...)` (`some url` on
    success, `none` models a thrown upload error);
  * `createObjectURL` — `URL.createObjectURL` on the processed file. -/
structure Env where
  now : String
  cloudAvailable : Bool
  proc : SFile → Option ProcessedImage
  upload : SFile → Option String
  createObjectURL : SFile → String

/-- What one call to `processAndUploadFiles` delivers through its callbacks:
the accumulated `newFiles` and `errors` arrays, the message passed to
`onError` (if any) and the list passed to `onComplete` (if any). -/
structure IntakeResult where
  newFiles : List MediaFile
  errors : List String
  errorCall : Option String
  completeCall : Option (List MediaFile)
deriving DecidableEq

/-- Outcome of one iteration of the `for` loop of `processAndUploadFiles`. -/
inductive FileOutcome
  | rejected (err : String)
  | accepted (mf : MediaFile)
deriving DecidableEq

/-- One iteration of the `for` loop of `processAndUploadFiles`
(`storageUtils.ts` lines 122–212) on the `i`-th file: validate, process,
moderate, then either cloud upload (falling back to a local object URL on
failure) or the local object URL directly. -/
def processOneFile (env : Env) (i : Nat) (file : SFile) : FileOutcome :=
  let fileId := env.now ++ toString i
  let validation := validateImageFile file
  if validation.isValid = false then
    .rejected (validation.error.getD "")
  else
    match env.proc file with
    | none => .rejected (file.name ++ ": Failed to process image")
    | some processedImage =>
      let moderationResult := moderateImage processedImage.file
      if moderationResult.approved = false then
        .rejected (file.name ++ ": " ++ (moderationResult.reason.getD "Content not approved"))
      else
        let mediaFile : MediaFile :=
          { id := fileId
            src := ""
            width := processedImage.width
            height := processedImage.height
            aspectRatio := processedImage.aspectRatio
            file := processedImage.file
            uploadProgress := some 0
            isUploading := some true }
        if env.cloudAvailable then
          match env.upload processedImage.file with
          | some cloudUrl =>
            .accepted { mediaFile with
              src := cloudUrl
              cloudUrl := some cloudUrl
              isUploading := some false
              uploadProgress := some 100 }
          | none =>
            -- cloud upload failed: fall back to local storage (only logged)
            .accepted { mediaFile with
              src := env.createObjectURL processedImage.file
              isUploading := some false
              uploadProgress := some 100 }
        else
          .accepted { mediaFile with
            src := env.createObjectURL processedImage.file
            isUploading := some false
            uploadProgress := some 100 }

/-- The `for` loop of `processAndUploadFiles`, accumulating the `newFiles`
and `errors` arrays in order (`i` is the loop index of the first file). -/
def processFilesLoop (env : Env) : Nat → List SFile → List MediaFile × List String
  | _, [] => ([], [])
  | i, f :: rest =>
    let tail := processFilesLoop env (i + 1) rest
    match processOneFile env i f with
    | .accepted m => (m :: tail.1, tail.2)
    | .rejected e => (tail.1, e :: tail.2)

/-- `processAndUploadFiles` from `storageUtils.ts` (lines 102–223):
rejects the whole batch when `existingFiles.length + files.length > 12`,
otherwise runs the per-file loop; afterwards reports the joined errors to
`onError` (if any) and the new files to `onComplete` (if any). -/
def processAndUploadFiles (env : Env) (files : List SFile)
    (existingFiles : List MediaFile) : IntakeResult :=
  let maxFiles : Int := 12
  if (existingFiles.length : Int) + files.length > maxFiles then
    { newFiles := []
      errors := []
      errorCall := some ("Maximum " ++ toString maxFiles ++
        " files allowed. You can add " ++ toString (maxFiles - existingFiles.length) ++
        " more files.")
      completeCall := none }
  else
    let acc := processFilesLoop env 0 files
    { newFiles := acc.1
      errors := acc.2
      errorCall := if acc.2 ≠ [] then some (String.intercalate "\n" acc.2) else none
      completeCall := if acc.1 ≠ [] then some acc.1 else none }

/-- JS falsiness of an optional string (`undefined` and `""` are falsy),
as used by `!file.cloudUrl`. -/
def jsFalsy : Option String → Bool
  | none => true
  | some s => s == ""

/-- `cleanupObjectUrls` from `storageUtils.ts` (lines 226–232), modelled as
the list of URLs it revokes, in order: the `src` of every entry whose `src`
starts with `"blob:"` and whose `cloudUrl` is falsy. -/
def cleanupObjectUrls (mediaFiles : List MediaFile) : List String :=
  mediaFiles.filterMap fun file =>
    if startsWithStr file.src "blob:" && jsFalsy file.cloudUrl then some file.src
    else none

/-- The React effect owning the media list (present identically in
`MediaUploader`, `ProjectStepper` and the Dashboard page):

    useEffect(() => {
      return () => {
        if (mediaFiles.length > 0) cleanupObjectUrls(mediaFiles);
      };
    }, [mediaFiles]);

Because the dependency array is `[mediaFiles]`, the returned cleanup runs
once for every value the list takes during the component's life: when that
value is replaced by the next one (via `setMediaFiles`), and at unmount for
the final value.  Given the successive values `states` of the list (ending
at unmount), this yields the concatenated revocations below. -/
def effectRevocations (states : List (List MediaFile)) : List String :=
  states.flatMap fun s => if s.length > 0 then cleanupObjectUrls s else []

/-! ## `AutoLayout.tsx` -/

/-- `getSectionPlacement` from `AutoLayout.tsx` (lines 33–48): keyword
buckets tested in order — introduction, methodology, results — on the
lower-cased caption, defaulting to `"results"`. -/
def getSectionPlacement (caption : String) : String :=
  let lowerCaption := toLowerStr caption
  if hasSubstr lowerCaption "intro" || hasSubstr lowerCaption "background" ||
      hasSubstr lowerCaption "overview" then
    "introduction"
  else if hasSubstr lowerCaption "method" || hasSubstr lowerCaption "approach" ||
      hasSubstr lowerCaption "process" then
    "methodology"
  else if hasSubstr lowerCaption "result" || hasSubstr lowerCaption "data" ||
      hasSubstr lowerCaption "chart" || hasSubstr lowerCaption "graph" then
    "results"
  else
    "results"

/-- `handleDrop` from `AutoLayout.tsx` (lines 60–76).  `draggedItem` is the
component state set by `handleDragStart` (`none` when nothing is dragged).
Returns the list passed to `onReorder`, or `none` when the handler returns
without reordering (no drag in progress, drop on itself, or an id not
found).  The two `splice` calls become `eraseIdx` at the dragged index
followed by `insertIdx` at the target index (indices as computed by
`findIndex` on the original list). -/
def handleDrop (mediaFiles : List MediaFile) (draggedItem : Option String)
    (targetId : String) : Option (List MediaFile) :=
  match draggedItem with
  | none => none
  | some dragged =>
    if dragged == targetId then none
    else
      match List.findIdx? (fun f => f.id == dragged) mediaFiles,
            List.findIdx? (fun f => f.id == targetId) mediaFiles with
      | some draggedIndex, some targetIndex =>
        match mediaFiles[draggedIndex]? with
        | some draggedFile =>
          some ((mediaFiles.eraseIdx draggedIndex).insertIdx targetIndex draggedFile)
        | none => none
      | _, _ => none

/-- `removeFile` from `AutoLayout.tsx` (lines 93–97): the list passed to
`onReorder` keeps every entry whose id differs from `fileId`.  It performs
no URL revocation itself. -/
def removeFile (mediaFiles : List MediaFile) (fileId : String) : List MediaFile :=
  mediaFiles.filter fun f => !(f.id == fileId)

/-! ## Export utilities (`exportToPDF` / `exportToPPTX` / `exportToPNG`) -/

/-- JS `a || b` on an optional string (`caption || file.name`): falsy
captions (`undefined` or `""`) fall back to the file name. -/
def jsOrElse (a : Option String) (b : String) : String :=
  match a with
  | none => b
  | some s => if s == "" then b else s

/-- One logical text block emitted by `exportToPDF` (each `pdf.text(...)`
call, tagged by which statement of the source emits it; coordinates, fonts
and line-wrapping are presentation state outside the embedding). -/
inductive PdfBlock
  | titleText (s : String)
  | abstractText (s : String)
  | sectionTitle (s : String)
  | sectionContent (s : String)
  | figuresHeading
  | figureCaption (s : String)
  | referencesHeading
  | referenceItem (s : String)
deriving DecidableEq

/-- The caption blocks of the figure loop of `exportToPDF` (lines 119–158),
starting at loop index `i`.  Each iteration runs inside a `try/catch`:
`await fileToDataURL(mediaFile.file)` and `pdf.addImage(...)` can fail, and
the `catch` then skips the rest of the iteration — including the caption —
and continues with the next file.  `readOk` is the oracle for that
read/embed outcome; on success the caption
`Figure ${i+1}: ${caption || file.name}` is emitted with `i` the original
loop index. -/
def figureBlocks (readOk : SFile → Bool) : Nat → List MediaFile → List PdfBlock
  | _, [] => []
  | i, m :: rest =>
    if readOk m.file then
      .figureCaption ("Figure " ++ toString (i + 1) ++ ": " ++ jsOrElse m.caption m.file.name)
        :: figureBlocks readOk (i + 1) rest
    else
      figureBlocks readOk (i + 1) rest

/-- Is a block one of the figure captions? -/
def isFigureCaption : PdfBlock → Bool
  | .figureCaption _ => true
  | _ => false

/-- The citation blocks of the references loop of `exportToPDF` (lines
174–179), starting at index `i`: `${index+1}. ${citation}`. -/
def refBlocks : Nat → List String → List PdfBlock
  | _, [] => []
  | i, c :: rest =>
    .referenceItem (toString (i + 1) ++ ". " ++ c) :: refBlocks (i + 1) rest

/-- The ordered sequence of text blocks emitted by `exportToPDF`
(`exportUtils` lines 61–189): title, abstract, the sections in order, a
`Figures` section (heading plus one caption per media file whose
read/embed — see `figureBlocks` — succeeds) only when
`mediaFiles.length > 0`, and a `References` section (heading plus numbered
citations) only when `citations.length > 0`. -/
def exportToPDFBlocks (readOk : SFile → Bool) (projectData : ProjectData)
    (mediaFiles : List MediaFile) : List PdfBlock :=
  [.titleText projectData.title, .abstractText projectData.abstract]
    ++ (projectData.sections.flatMap fun s => [.sectionTitle s.title, .sectionContent s.content])
    ++ (if mediaFiles.length > 0 then
          .figuresHeading :: figureBlocks readOk 0 mediaFiles
        else [])
    ++ (if projectData.citations.length > 0 then
          .referencesHeading :: refBlocks 0 projectData.citations
        else [])

/-- The title sanitization shared by the three export routines:
`title.replace(/[^a-z0-9]/gi, '_').toLowerCase()` — every character outside
ASCII `[a-zA-Z0-9]` becomes `'_'`, then the result is lower-cased. -/
def sanitizeTitle (title : String) : String :=
  String.mk ((title.data.map fun c => if c.isAlphanum then c else '_').map Char.toLower)

/-- The file name `exportToPDF` saves to (line 183). -/
def pdfFileName (projectData : ProjectData) : String :=
  sanitizeTitle projectData.title ++ ".pdf"

/-- The file name `exportToPPTX` saves to (line 355). -/
def pptxFileName (projectData : ProjectData) : String :=
  sanitizeTitle projectData.title ++ ".pptx"

/-- The file name `exportToPNG` downloads to (line 387); its `filename`
argument is the project title (the Dashboard passes
`formData.projectIdea || 'project'`). -/
def pngFileName (filename : String) : String :=
  sanitizeTitle filename ++ "_gallery.png"

/-! ## Concrete fixtures used by counterexamples and witnesses -/

/-- A small valid PNG file. -/
def pngA : SFile := { name := "alpha.png", size := 2048, type := "image/png" }

/-- Another small valid PNG file. -/
def pngB : SFile := { name := "beta.png", size := 4096, type := "image/png" }

/-- An oversized file (10 MiB + 1). -/
def bigFile : SFile := { name := "big.png", size := 10 * 1024 * 1024 + 1, type := "image/png" }

/-- A media entry with a local blob `src` and no `cloudUrl`. -/
def entryA : MediaFile :=
  { id := "A", src := "blob:aaaa", width := 10, height := 10, aspectRatio := 1, file := pngA }

/-- A second media entry with a local blob `src` and no `cloudUrl`. -/
def entryB : MediaFile :=
  { id := "B", src := "blob:bbbb", width := 20, height := 10, aspectRatio := 2, file := pngB }

/-- A third media entry. -/
def entryC : MediaFile :=
  { id := "C", src := "blob:cccc", width := 30, height := 10, aspectRatio := 3, file := pngA }

/-- A small project with one section and one citation. -/
def pdSample : ProjectData :=
  { title := "T"
    abstract := "An abstract"
    sections := [{ title := "S", content := "Body" }]
    citations := ["Smith 2023"] }

/-- An environment where cloud storage is configured but every upload
fails; decoding always succeeds at 10 × 5 pixels. -/
def envUploadFails : Env :=
  { now := "1700000000000"
    cloudAvailable := true
    proc := fun f => some { file := f, width := 10, height := 5, aspectRatio := 2 }
    upload := fun _ => none
    createObjectURL := fun f => "blob:" ++ f.name }

/-- An environment with no cloud storage configured (local-only mode). -/
def envLocalOnly : Env :=
  { now := "1700000000000"
    cloudAvailable := false
    proc := fun f => some { file := f, width := 10, height := 5, aspectRatio := 2 }
    upload := fun _ => none
    createObjectURL := fun f => "blob:" ++ f.name }

/-! ## Helper lemmas -/

theorem alphanum_toLower (c : Char) (h : c.isAlphanum = true) :
    c.toLower.isLower = true ∨ c.toLower.isDigit = true := by
  have hb : c.toNat ≤ 122 := by
    simp only [Char.isAlphanum, Char.isAlpha, Char.isUpper, Char.isLower, Char.isDigit,
      Bool.or_eq_true, Bool.and_eq_true, decide_eq_true_eq] at h
    rcases h with (⟨-, h2⟩ | ⟨-, h2⟩) | ⟨-, h2⟩
    · exact le_trans (UInt32.toNat_le_of_le (m := 90) (by decide) h2) (by omega)
    · exact le_trans (UInt32.toNat_le_of_le (m := 122) (by decide) h2) (by omega)
    · exact le_trans (UInt32.toNat_le_of_le (m := 57) (by decide) h2) (by omega)
  have hkey : ∀ n : Nat, n < 123 → (Char.ofNat n).isAlphanum = true →
      ((Char.ofNat n).toLower.isLower = true ∨ (Char.ofNat n).toLower.isDigit = true) := by
    decide
  have hc := hkey c.toNat (by omega) (by rwa [Char.ofNat_toNat])
  rwa [Char.ofNat_toNat] at hc

theorem insertIdx_perm_cons (a : α) :
    ∀ (n : ℕ) (l : List α), n ≤ l.length → (l.insertIdx n a).Perm (a :: l)
  | 0, l, _ => by simp
  | n + 1, [], h => by simp at h
  | n + 1, b :: t, h => by
    rw [List.insertIdx_succ_cons]
    exact ((insertIdx_perm_cons a n t (by simpa using h)).cons b).trans
      (List.Perm.swap a b t)

theorem cons_eraseIdx_perm :
    ∀ (l : List α) (i : ℕ) (a : α), l[i]? = some a → (a :: l.eraseIdx i).Perm l
  | b :: t, 0, a, h => by
    simp only [List.getElem?_cons_zero, Option.some.injEq] at h
    subst h
    simp [List.eraseIdx]
  | b :: t, i + 1, a, h => by
    have ih := cons_eraseIdx_perm t i a (by simpa using h)
    simpa [List.eraseIdx] using (List.Perm.swap b a (t.eraseIdx i)).trans (ih.cons b)

theorem file_msg_ne_empty (s t : String) : ("File \"" ++ s ++ t) ≠ "" := by
  intro h
  have h2 := congrArg String.data h
  simp at h2

/-- Every accepted outcome of the per-file loop body comes from a file the
validator accepted and a successful decode, finishes with
`isUploading = false`, `uploadProgress = 100`, and carries either the
successful upload URL (also as `cloudUrl`) or a fresh local object URL
(with no `cloudUrl`). -/
theorem processOneFile_accepted_spec (env : Env) (i : Nat) (f : SFile) (m : MediaFile)
    (h : processOneFile env i f = .accepted m) :
    (validateImageFile f).isValid = true ∧
    ∃ p, env.proc f = some p ∧ m.file = p.file ∧ m.id = env.now ++ toString i ∧
      m.width = p.width ∧ m.height = p.height ∧ m.aspectRatio = p.aspectRatio ∧
      m.isUploading = some false ∧ m.uploadProgress = some 100 ∧
      ((∃ url, env.cloudAvailable = true ∧ env.upload p.file = some url ∧
          m.src = url ∧ m.cloudUrl = some url) ∨
        (m.src = env.createObjectURL p.file ∧ m.cloudUrl = none)) := by
  have hv : (validateImageFile f).isValid = true ∨ (validateImageFile f).isValid = false := by
    cases (validateImageFile f).isValid <;> simp
  rcases hv with hv | hv
  · refine ⟨hv, ?_⟩
    cases hp : env.proc f with
    | none => simp [processOneFile, hv, hp] at h
    | some p =>
      refine ⟨p, rfl, ?_⟩
      cases hc : env.cloudAvailable with
      | false =>
        simp only [processOneFile, hv, hp, hc, moderateImage, Bool.false_eq_true, if_false,
          if_true, Bool.true_eq_false] at h
        cases h
        exact ⟨rfl, rfl, rfl, rfl, rfl, rfl, rfl, Or.inr ⟨rfl, rfl⟩⟩
      | true =>
        cases hu : env.upload p.file with
        | none =>
          simp only [processOneFile, hv, hp, hc, hu, moderateImage, Bool.false_eq_true,
            if_false, if_true, Bool.true_eq_false] at h
          cases h
          exact ⟨rfl, rfl, rfl, rfl, rfl, rfl, rfl, Or.inr ⟨rfl, rfl⟩⟩
        | some url =>
          simp only [processOneFile, hv, hp, hc, hu, moderateImage, Bool.false_eq_true,
            if_false, if_true, Bool.true_eq_false] at h
          cases h
          exact ⟨rfl, rfl, rfl, rfl, rfl, rfl, rfl, Or.inl ⟨url, rfl, rfl, rfl, rfl⟩⟩
  · simp [processOneFile, hv] at h

/-- The rejection outcomes of the loop body do not depend on the upload
oracle. -/
theorem processOneFile_rejected_upload_irrelevant (env : Env) (u : SFile → Option String)
    (i : Nat) (f : SFile) (e : String) :
    processOneFile { env with upload := u } i f = .rejected e ↔
      processOneFile env i f = .rejected e := by
  have hv : (validateImageFile f).isValid = true ∨ (validateImageFile f).isValid = false := by
    cases (validateImageFile f).isValid <;> simp
  rcases hv with hv | hv
  · cases hp : env.proc f with
    | none => simp [processOneFile, hv, hp]
    | some p =>
      cases hc : env.cloudAvailable with
      | false => simp [processOneFile, hv, hp, hc, moderateImage]
      | true =>
        cases hu1 : u p.file <;> cases hu2 : env.upload p.file <;>
          simp [processOneFile, hv, hp, hc, hu1, hu2, moderateImage]
  · simp [processOneFile, hv]

/-- The error list accumulated by the loop does not depend on the upload
oracle. -/
theorem processFilesLoop_errors_upload_irrelevant (env : Env) (u : SFile → Option String) :
    ∀ (k : Nat) (files : List SFile),
      (processFilesLoop { env with upload := u } k files).2 =
        (processFilesLoop env k files).2
  | _, [] => rfl
  | k, f :: rest => by
    have ih := processFilesLoop_errors_upload_irrelevant env u (k + 1) rest
    cases h1 : processOneFile env k f with
    | rejected e =>
      have h2 : processOneFile { env with upload := u } k f = .rejected e :=
        (processOneFile_rejected_upload_irrelevant env u k f e).mpr h1
      simp [processFilesLoop, h1, h2, ih]
    | accepted m =>
      cases h2 : processOneFile { env with upload := u } k f with
      | rejected e =>
        have := (processOneFile_rejected_upload_irrelevant env u k f e).mp h2
        rw [this] at h1
        cases h1
      | accepted m2 => simp [processFilesLoop, h1, h2, ih]

/-- The loop accepts at most as many files as it is given. -/
theorem processFilesLoop_newFiles_length_le (env : Env) :
    ∀ (k : Nat) (files : List SFile),
      (processFilesLoop env k files).1.length ≤ files.length
  | _, [] => le_refl _
  | k, f :: rest => by
    have ih := processFilesLoop_newFiles_length_le env (k + 1) rest
    cases h1 : processOneFile env k f with
    | rejected e => simp only [processFilesLoop, h1]; exact le_trans ih (by simp)
    | accepted m => simpa [processFilesLoop, h1] using ih

/-- Every entry of the loop's `newFiles` is the accepted outcome of some
input file. -/
theorem processFilesLoop_newFiles_sound (env : Env) :
    ∀ (k : Nat) (files : List SFile) (m : MediaFile),
      m ∈ (processFilesLoop env k files).1 →
      ∃ f ∈ files, ∃ i, processOneFile env i f = .accepted m
  | _, [], m, h => by simp [processFilesLoop] at h
  | k, f :: rest, m, h => by
    cases h1 : processOneFile env k f with
    | rejected e =>
      rw [processFilesLoop, h1] at h
      obtain ⟨g, hg, i, hi⟩ := processFilesLoop_newFiles_sound env (k + 1) rest m h
      exact ⟨g, List.mem_cons_of_mem f hg, i, hi⟩
    | accepted m2 =>
      rw [processFilesLoop, h1] at h
      rcases List.mem_cons.mp h with rfl | h
      · exact ⟨f, List.mem_cons_self f rest, k, h1⟩
      · obtain ⟨g, hg, i, hi⟩ := processFilesLoop_newFiles_sound env (k + 1) rest m h
        exact ⟨g, List.mem_cons_of_mem f hg, i, hi⟩

/-- An accepted outcome of the `j`-th input file is a member of the loop's
`newFiles`. -/
theorem processFilesLoop_mem_of_accepted (env : Env) :
    ∀ (k j : Nat) (files : List SFile) (f : SFile) (m : MediaFile),
      files[j]? = some f → processOneFile env (k + j) f = .accepted m →
      m ∈ (processFilesLoop env k files).1
  | _, j, [], f, m, h, _ => by simp at h
  | k, 0, g :: rest, f, m, h, hacc => by
    simp only [List.getElem?_cons_zero, Option.some.injEq] at h
    subst h
    rw [Nat.add_zero] at hacc
    rw [processFilesLoop, hacc]
    exact List.mem_cons_self _ _
  | k, j + 1, g :: rest, f, m, h, hacc => by
    have hrec := processFilesLoop_mem_of_accepted env (k + 1) j rest f m
      (by simpa using h) (by rw [show k + 1 + j = k + (j + 1) by omega]; exact hacc)
    cases h1 : processOneFile env k g with
    | rejected e => rw [processFilesLoop, h1]; exact hrec
    | accepted m2 => rw [processFilesLoop, h1]; exact List.mem_cons_of_mem _ hrec

theorem figureBlocks_length_filter (readOk : SFile → Bool) :
    ∀ (k : Nat) (l : List MediaFile),
      (figureBlocks readOk k l).length = (l.filter (fun m => readOk m.file)).length
  | _, [] => rfl
  | k, m :: rest => by
    have ih := figureBlocks_length_filter readOk (k + 1) rest
    cases h : readOk m.file <;> simp [figureBlocks, h, List.filter_cons, ih]

theorem figureBlocks_length_all (readOk : SFile → Bool) (k : Nat) (l : List MediaFile)
    (h : ∀ m ∈ l, readOk m.file = true) :
    (figureBlocks readOk k l).length = l.length := by
  rw [figureBlocks_length_filter, List.filter_eq_self.mpr h]

theorem figureBlocks_getElem? (readOk : SFile → Bool) :
    ∀ (k j : Nat) (l : List MediaFile) (m : MediaFile),
      (∀ x ∈ l, readOk x.file = true) → l[j]? = some m →
      (figureBlocks readOk k l)[j]? =
        some (.figureCaption ("Figure " ++ toString (k + j + 1) ++ ": " ++
          jsOrElse m.caption m.file.name))
  | _, _, [], m, _, h => by simp at h
  | k, 0, m0 :: rest, m, hall, h => by
    simp only [List.getElem?_cons_zero, Option.some.injEq] at h
    subst h
    rw [figureBlocks, if_pos (hall m0 (List.mem_cons_self m0 rest))]
    simp
  | k, j + 1, m0 :: rest, m, hall, h => by
    have ih := figureBlocks_getElem? readOk (k + 1) j rest m
      (fun x hx => hall x (List.mem_cons_of_mem m0 hx)) (by simpa using h)
    rw [figureBlocks, if_pos (hall m0 (List.mem_cons_self m0 rest)),
      List.getElem?_cons_succ, ih,
      show k + 1 + j + 1 = k + (j + 1) + 1 from by omega]

/-- Every block the figure loop emits is the caption of some media file at
its original (1-based) position whose read/embed succeeded. -/
theorem figureBlocks_sound (readOk : SFile → Bool) :
    ∀ (k : Nat) (l : List MediaFile) (b : PdfBlock), b ∈ figureBlocks readOk k l →
      ∃ (j : Nat) (m : MediaFile), l[j]? = some m ∧ readOk m.file = true ∧
        b = .figureCaption ("Figure " ++ toString (k + j + 1) ++ ": " ++
          jsOrElse m.caption m.file.name)
  | _, [], b, h => by simp [figureBlocks] at h
  | k, m0 :: rest, b, h => by
    by_cases h0 : readOk m0.file = true
    · rw [figureBlocks, if_pos h0] at h
      rcases List.mem_cons.mp h with rfl | htail
      · exact ⟨0, m0, by simp, h0, by simp⟩
      · obtain ⟨j, m, hj, hok, hb⟩ := figureBlocks_sound readOk (k + 1) rest b htail
        exact ⟨j + 1, m, by simpa using hj, hok,
          by rw [hb, show k + 1 + j + 1 = k + (j + 1) + 1 from by omega]⟩
    · rw [figureBlocks, if_neg h0] at h
      obtain ⟨j, m, hj, hok, hb⟩ := figureBlocks_sound readOk (k + 1) rest b h
      exact ⟨j + 1, m, by simpa using hj, hok,
        by rw [hb, show k + 1 + j + 1 = k + (j + 1) + 1 from by omega]⟩

theorem refBlocks_length :
    ∀ (k : Nat) (cs : List String), (refBlocks k cs).length = cs.length
  | _, [] => rfl
  | k, c :: rest => by
    simp [refBlocks, refBlocks_length (k + 1) rest]

theorem refBlocks_getElem? :
    ∀ (k j : Nat) (cs : List String) (c : String), cs[j]? = some c →
      (refBlocks k cs)[j]? = some (.referenceItem (toString (k + j + 1) ++ ". " ++ c))
  | _, _, [], c, h => by simp at h
  | k, 0, c0 :: rest, c, h => by
    simp only [List.getElem?_cons_zero, Option.some.injEq] at h
    subst h
    simp [refBlocks]
  | k, j + 1, c0 :: rest, c, h => by
    have ih := refBlocks_getElem? (k + 1) j rest c (by simpa using h)
    rw [refBlocks, List.getElem?_cons_succ, ih,
      show k + 1 + j + 1 = k + (j + 1) + 1 from by omega]

theorem figuresHeading_not_mem_sectionBlocks (sections : List PSection) :
    PdfBlock.figuresHeading ∉ sections.flatMap
      (fun s => [PdfBlock.sectionTitle s.title, PdfBlock.sectionContent s.content]) := by
  intro h
  simp only [List.mem_flatMap] at h
  obtain ⟨s, -, hmem⟩ := h
  simp at hmem

theorem figuresHeading_not_mem_refBlocks :
    ∀ (k : Nat) (cs : List String), PdfBlock.figuresHeading ∉ refBlocks k cs
  | _, [] => by simp [refBlocks]
  | k, c :: rest => by
    intro h
    rcases List.mem_cons.mp h with h1 | h2
    · cases h1
    · exact figuresHeading_not_mem_refBlocks (k + 1) rest h2

/-- The message delivered through `onError` does not depend on the upload
oracle: upload failures are never reported to the error callback. -/
theorem processAndUploadFiles_errorCall_upload_irrelevant (env : Env)
    (u : SFile → Option String) (files : List SFile) (existingFiles : List MediaFile) :
    (processAndUploadFiles { env with upload := u } files existingFiles).errorCall =
      (processAndUploadFiles env files existingFiles).errorCall := by
  simp only [processAndUploadFiles]
  split
  · rfl
  · simp only
    rw [processFilesLoop_errors_upload_irrelevant]

/-- A string starting with `blob:` is not empty. -/
theorem startsWith_blob_ne_empty (s : String) (h : startsWithStr s "blob:" = true) :
    s ≠ "" := by
  intro heq
  rw [heq] at h
  exact absurd h (by decide)

/-! ## Claims -/

/-- C2: `validateImageFile` rejects exactly the files that are oversized
(> 10 MiB), have a MIME type outside the allow-list, or whose lower-cased
name contains a blocklisted executable-like extension; the checks are
applied in that order (the first failing check's message is returned), a
rejection always carries a non-empty reason, and batch intake never puts
an entry into the completed media list that does not stem from a
validator-accepted file.  (The Lean embedding is a pure function, matching
the side-effect-freeness of the source.) -/
theorem validateImageFile_spec (f : SFile) :
    ((validateImageFile f).isValid = false ↔
      (f.size > 10 * 1024 * 1024 ∨
        ALLOWED_MIME_TYPES.contains f.type = false ∨
        suspiciousExtensions.any (fun ext => hasSubstr (toLowerStr f.name) ext) = true)) ∧
    ((validateImageFile f).isValid = false →
      ∃ e, (validateImageFile f).error = some e ∧ e ≠ "") ∧
    (f.size > 10 * 1024 * 1024 →
      (validateImageFile f).error =
        some ("File \"" ++ f.name ++ "\" is too large. Maximum size is 10MB.")) ∧
    (f.size ≤ 10 * 1024 * 1024 → ALLOWED_MIME_TYPES.contains f.type = false →
      (validateImageFile f).error =
        some ("File \"" ++ f.name ++
          "\" has unsupported format. Only JPG, PNG, and WebP are allowed.")) ∧
    (f.size ≤ 10 * 1024 * 1024 → ALLOWED_MIME_TYPES.contains f.type = true →
      suspiciousExtensions.any (fun ext => hasSubstr (toLowerStr f.name) ext) = true →
      (validateImageFile f).error =
        some ("File \"" ++ f.name ++ "\" appears to be suspicious and cannot be uploaded.")) ∧
    (f.size ≤ 10 * 1024 * 1024 → ALLOWED_MIME_TYPES.contains f.type = true →
      suspiciousExtensions.any (fun ext => hasSubstr (toLowerStr f.name) ext) = false →
      validateImageFile f = { isValid := true, error := none }) ∧
    (∀ (env : Env) (files : List SFile) (existingFiles nf : List MediaFile) (m : MediaFile),
      (processAndUploadFiles env files existingFiles).completeCall = some nf → m ∈ nf →
      ∃ g ∈ files, (validateImageFile g).isValid = true ∧
        ∃ p, env.proc g = some p ∧ m.file = p.file) := by
  have hnever : ∀ (env : Env) (files : List SFile) (existingFiles nf : List MediaFile)
      (m : MediaFile),
      (processAndUploadFiles env files existingFiles).completeCall = some nf → m ∈ nf →
      ∃ g ∈ files, (validateImageFile g).isValid = true ∧
        ∃ p, env.proc g = some p ∧ m.file = p.file := by
    intro env files existingFiles nf m hcc hm
    simp only [processAndUploadFiles] at hcc
    split at hcc
    · cases hcc
    · simp only at hcc
      split at hcc
      · obtain rfl := Option.some.inj hcc
        obtain ⟨g, hg, i, hacc⟩ := processFilesLoop_newFiles_sound env 0 files m hm
        obtain ⟨hvalid, p, hp, hfile, -⟩ := processOneFile_accepted_spec env i g m hacc
        exact ⟨g, hg, hvalid, p, hp, hfile⟩
      · cases hcc
  by_cases hs : f.size > 10 * 1024 * 1024
  · have hval : validateImageFile f =
        { isValid := false
          error := some ("File \"" ++ f.name ++ "\" is too large. Maximum size is 10MB.") } := by
      simp only [validateImageFile, MAX_FILE_SIZE]
      rw [if_pos hs]
    refine ⟨?_, ?_, ?_, ?_, ?_, ?_, hnever⟩
    · rw [hval]; simp [hs]
    · exact fun _ => ⟨"File \"" ++ f.name ++ "\" is too large. Maximum size is 10MB.",
        by rw [hval], file_msg_ne_empty _ _⟩
    · exact fun _ => by rw [hval]
    · exact fun hle _ => absurd hs (by omega)
    · exact fun hle _ _ => absurd hs (by omega)
    · exact fun hle _ _ => absurd hs (by omega)
  · by_cases ht : ALLOWED_MIME_TYPES.contains f.type = true
    · by_cases hx : suspiciousExtensions.any
          (fun ext => hasSubstr (toLowerStr f.name) ext) = true
      · have hval : validateImageFile f =
            { isValid := false
              error := some ("File \"" ++ f.name ++
                "\" appears to be suspicious and cannot be uploaded.") } := by
          simp only [validateImageFile, MAX_FILE_SIZE]
          rw [if_neg hs, if_neg (by simp [List.mem_of_elem_eq_true ht]), if_pos hx]
        refine ⟨?_, ?_, ?_, ?_, ?_, ?_, hnever⟩
        · rw [hval]; simp [hx]
        · exact fun _ => ⟨"File \"" ++ f.name ++
            "\" appears to be suspicious and cannot be uploaded.",
            by rw [hval], file_msg_ne_empty _ _⟩
        · exact fun h => absurd h hs
        · exact fun _ hc => by rw [ht] at hc; cases hc
        · exact fun _ _ _ => by rw [hval]
        · exact fun _ _ hc => by rw [hx] at hc; cases hc
      · have hval : validateImageFile f = { isValid := true, error := none } := by
          simp only [validateImageFile, MAX_FILE_SIZE]
          rw [if_neg hs, if_neg (by simp [List.mem_of_elem_eq_true ht]), if_neg (by simpa using hx)]
        refine ⟨?_, ?_, ?_, ?_, ?_, ?_, hnever⟩
        · rw [hval]; simp [hs, List.mem_of_elem_eq_true ht, hx]
        · intro hc; rw [hval] at hc; cases hc
        · exact fun h => absurd h hs
        · exact fun _ hc => by rw [ht] at hc; cases hc
        · exact fun _ _ hc => absurd hc hx
        · exact fun _ _ _ => hval
    · have ht2 : ALLOWED_MIME_TYPES.contains f.type = false := by
        revert ht; cases ALLOWED_MIME_TYPES.contains f.type <;> simp
      have hval : validateImageFile f =
          { isValid := false
            error := some ("File \"" ++ f.name ++
              "\" has unsupported format. Only JPG, PNG, and WebP are allowed.") } := by
        simp only [validateImageFile, MAX_FILE_SIZE]
        rw [if_neg hs, if_pos (by simpa using fun hmem => Bool.false_ne_true (ht2 ▸ List.elem_eq_true_of_mem hmem))]
      refine ⟨?_, ?_, ?_, ?_, ?_, ?_, hnever⟩
      · have hmem : f.type ∉ ALLOWED_MIME_TYPES := by
          intro hm
          have h3 : ALLOWED_MIME_TYPES.contains f.type = true := List.elem_eq_true_of_mem hm
          rw [ht2] at h3
          cases h3
        rw [hval]
        simpa using Or.inr (Or.inl hmem)
      · exact fun _ => ⟨"File \"" ++ f.name ++
          "\" has unsupported format. Only JPG, PNG, and WebP are allowed.",
          by rw [hval], file_msg_ne_empty _ _⟩
      · exact fun h => absurd h hs
      · exact fun _ _ => by rw [hval]
      · exact fun _ hc _ => by rw [ht2] at hc; cases hc
      · exact fun _ hc _ => by rw [ht2] at hc; cases hc

/-- C2, witness: an oversized file, a wrong-typed file and a
blocklist-named file are each rejected with the corresponding message, and
a clean file is accepted. -/
theorem validateImageFile_spec_witness :
    (validateImageFile bigFile).error =
      some "File \"big.png\" is too large. Maximum size is 10MB." ∧
    (validateImageFile { name := "a.gif", size := 1, type := "image/gif" }).error =
      some "File \"a.gif\" has unsupported format. Only JPG, PNG, and WebP are allowed." ∧
    (validateImageFile { name := "x.EXE.png", size := 1, type := "image/png" }).error =
      some "File \"x.EXE.png\" appears to be suspicious and cannot be uploaded." ∧
    validateImageFile pngA = { isValid := true, error := none } := by
  refine ⟨?_, ?_, ?_, ?_⟩
  · rw [(validateImageFile_spec bigFile).2.2.1 (by decide)]; decide
  · rw [(validateImageFile_spec _).2.2.2.1 (by decide) (by decide)]; decide
  · rw [(validateImageFile_spec _).2.2.2.2.1 (by decide) (by decide) (by decide)]; decide
  · exact (validateImageFile_spec pngA).2.2.2.2.2.1 (by decide) (by decide) (by decide)

/-- C3: for natural dimensions `W × H` with `H > 0`, `processImage` caps
the width at 2000 — downsampling to `2000 × round (2000·H/W)` when
`W > 2000` and leaving the dimensions unchanged otherwise — and the
returned `aspectRatio` equals returned width over returned height
(exactly, in the exact-rational model of JS float arithmetic). -/
theorem processImage_dims (file : SFile) (W H newSize : Nat) (hH : 0 < H) :
    (processImage file W H newSize).width ≤ 2000 ∧
    (W > 2000 →
      (processImage file W H newSize).width = 2000 ∧
      (processImage file W H newSize).height = (round ((2000 * H : ℚ) / W)).toNat) ∧
    (W ≤ 2000 →
      (processImage file W H newSize).width = W ∧
      (processImage file W H newSize).height = H) ∧
    (processImage file W H newSize).aspectRatio =
      ((processImage file W H newSize).width : ℚ) /
        ((processImage file W H newSize).height : ℚ) := by
  have hH2 : (0 : ℚ) < H := by exact_mod_cast hH
  by_cases hw : W > 2000
  · have hkey : (2000 : ℚ) / ((W : ℚ) / (H : ℚ)) = (2000 * H : ℚ) / W :=
      div_div_eq_mul_div 2000 (W : ℚ) (H : ℚ)
    refine ⟨?_, fun _ => ⟨?_, ?_⟩, fun hle => absurd hle (by omega), ?_⟩
    · simp [processImage, MAX_WIDTH, hw]
    · simp [processImage, MAX_WIDTH, hw]
    · simp [processImage, MAX_WIDTH, hw, hkey]
    · simp [processImage, MAX_WIDTH, hw]
  · refine ⟨?_, fun hgt => absurd hgt hw, fun _ => ⟨?_, ?_⟩, ?_⟩
    · simp [processImage, MAX_WIDTH, hw]; omega
    · simp [processImage, MAX_WIDTH, hw]
    · simp [processImage, MAX_WIDTH, hw]
    · simp [processImage, MAX_WIDTH, hw]

/-- C3, witness: a 3000 × 1000 image is downsampled to 2000 × 667
(`round (2000·1000/3000) = round 666.67 = 667`), with `aspectRatio`
2000/667; a 1500 × 1000 image is untouched. -/
theorem processImage_dims_witness :
    (processImage pngA 3000 1000 512).width = 2000 ∧
    (processImage pngA 3000 1000 512).height = 667 ∧
    (processImage pngA 3000 1000 512).aspectRatio = (2000 : ℚ) / 667 ∧
    (processImage pngA 1500 1000 512).width = 1500 ∧
    (processImage pngA 1500 1000 512).height = 1000 := by
  have h1 := processImage_dims pngA 3000 1000 512 (by decide)
  have h2 := processImage_dims pngA 1500 1000 512 (by decide)
  have hw : (processImage pngA 3000 1000 512).width = 2000 := (h1.2.1 (by decide)).1
  have hh : (processImage pngA 3000 1000 512).height = 667 := by
    rw [(h1.2.1 (by decide)).2]
    norm_num [round_eq]
    rfl
  refine ⟨hw, hh, ?_, (h2.2.2.1 (by decide)).1, (h2.2.2.1 (by decide)).2⟩
  rw [h1.2.2.2, hw, hh]
  norm_num

/-- C7: whenever the remote upload of a validated, decoded (and
moderation-approved, which the stub always grants) file fails — or no
remote client is configured at all — the file still completes intake with
a local object-URL `src`, `isUploading = false`, `uploadProgress = 100`
and no `cloudUrl`, and it is included in the batch passed to the
completion callback; the error callback's message never depends on the
upload oracle (upload failures are only logged); and — given that
`URL.createObjectURL` yields `blob:` URLs and successful uploads yield
non-empty public URLs — every entry produced by completed intake, in any
environment, has a non-empty `src`. -/
theorem upload_failure_silent_local_fallback
    (env : Env) (files : List SFile) (existingFiles : List MediaFile) :
    (∀ (j : Nat) (f : SFile) (p : ProcessedImage),
      ¬((existingFiles.length : Int) + files.length > 12) →
      files[j]? = some f →
      (validateImageFile f).isValid = true →
      env.proc f = some p →
      (env.cloudAvailable = false ∨ env.upload p.file = none) →
      ∃ m : MediaFile,
        processOneFile env j f = .accepted m ∧
        m.src = env.createObjectURL p.file ∧ m.isUploading = some false ∧
        m.uploadProgress = some 100 ∧ m.cloudUrl = none ∧
        m ∈ (processAndUploadFiles env files existingFiles).newFiles ∧
        (processAndUploadFiles env files existingFiles).completeCall =
          some ((processAndUploadFiles env files existingFiles).newFiles)) ∧
    (∀ u : SFile → Option String,
      (processAndUploadFiles { env with upload := u } files existingFiles).errorCall =
        (processAndUploadFiles env files existingFiles).errorCall) ∧
    ((∀ g : SFile, startsWithStr (env.createObjectURL g) "blob:" = true) →
      (∀ (g : SFile) (url : String), env.upload g = some url → url ≠ "") →
      ∀ m2 ∈ (processAndUploadFiles env files existingFiles).newFiles, m2.src ≠ "") := by
  refine ⟨?_, fun u => processAndUploadFiles_errorCall_upload_irrelevant env u files
    existingFiles, ?_⟩
  · intro j f p hcap hj hvalid hproc hnoup
    have hnf : (processAndUploadFiles env files existingFiles).newFiles =
        (processFilesLoop env 0 files).1 := by
      simp only [processAndUploadFiles]
      rw [if_neg hcap]
    have heq : processOneFile env j f = .accepted
        { id := env.now ++ toString j
          src := env.createObjectURL p.file
          width := p.width
          height := p.height
          aspectRatio := p.aspectRatio
          file := p.file
          uploadProgress := some 100
          isUploading := some false } := by
      cases hc : env.cloudAvailable with
      | false =>
        simp only [processOneFile, hvalid, hproc, hc, moderateImage,
          Bool.true_eq_false, Bool.false_eq_true, if_false, if_true]
      | true =>
        have hfail : env.upload p.file = none := by
          rcases hnoup with hnoup | hnoup
          · rw [hc] at hnoup
            cases hnoup
          · exact hnoup
        simp only [processOneFile, hvalid, hproc, hc, hfail, moderateImage,
          Bool.true_eq_false, if_false, if_true]
    refine ⟨_, heq, rfl, rfl, rfl, rfl, ?_, ?_⟩
    · rw [hnf]
      exact processFilesLoop_mem_of_accepted env 0 j files f _ hj
        (by rwa [Nat.zero_add])
    · have hmem : _ ∈ (processFilesLoop env 0 files).1 :=
        processFilesLoop_mem_of_accepted env 0 j files f _ hj (by rwa [Nat.zero_add])
      have hne : (processFilesLoop env 0 files).1 ≠ [] := List.ne_nil_of_mem hmem
      rw [hnf]
      simp only [processAndUploadFiles]
      rw [if_neg hcap]
      simp only
      rw [if_pos hne]
  · intro hblob hurl m2 hm2
    have hm3 : m2 ∈ (processFilesLoop env 0 files).1 := by
      by_cases hcap : (existingFiles.length : Int) + files.length > 12
      · have : (processAndUploadFiles env files existingFiles).newFiles = [] := by
          simp only [processAndUploadFiles]
          rw [if_pos hcap]
        rw [this] at hm2
        cases hm2
      · have : (processAndUploadFiles env files existingFiles).newFiles =
            (processFilesLoop env 0 files).1 := by
          simp only [processAndUploadFiles]
          rw [if_neg hcap]
        rwa [this] at hm2
    obtain ⟨g, -, i, hacc⟩ := processFilesLoop_newFiles_sound env 0 files m2 hm3
    obtain ⟨-, q, -, -, -, -, -, -, -, -, hsrc⟩ :=
      processOneFile_accepted_spec env i g m2 hacc
    rcases hsrc with ⟨url, -, hup, hsrc2, -⟩ | ⟨hsrc2, -⟩
    · rw [hsrc2]
      exact hurl q.file url hup
    · rw [hsrc2]
      exact startsWith_blob_ne_empty _ (hblob q.file)

/-- C7, witness: the upload-failure case (cloud configured, upload failing)
and the no-client case (local-only mode) both complete intake of one valid
file with a local `blob:` source, full progress and inclusion in the
completed batch, and every completed entry of the upload-failure intake
has a non-empty `src`. -/
theorem upload_failure_silent_local_fallback_witness :
    (∃ m : MediaFile,
      processOneFile envUploadFails 0 pngA = .accepted m ∧
      m.src = envUploadFails.createObjectURL
        { name := "alpha.png", size := 2048, type := "image/png" } ∧
      m.isUploading = some false ∧ m.uploadProgress = some 100 ∧ m.cloudUrl = none ∧
      m ∈ (processAndUploadFiles envUploadFails [pngA] []).newFiles ∧
      (processAndUploadFiles envUploadFails [pngA] []).completeCall =
        some ((processAndUploadFiles envUploadFails [pngA] []).newFiles)) ∧
    (∃ m : MediaFile,
      processOneFile envLocalOnly 0 pngA = .accepted m ∧
      m.src = envLocalOnly.createObjectURL
        { name := "alpha.png", size := 2048, type := "image/png" } ∧
      m.isUploading = some false ∧ m.uploadProgress = some 100 ∧ m.cloudUrl = none ∧
      m ∈ (processAndUploadFiles envLocalOnly [pngA] []).newFiles ∧
      (processAndUploadFiles envLocalOnly [pngA] []).completeCall =
        some ((processAndUploadFiles envLocalOnly [pngA] []).newFiles)) ∧
    (∀ m2 ∈ (processAndUploadFiles envUploadFails [pngA] []).newFiles, m2.src ≠ "") := by
  have h1 := upload_failure_silent_local_fallback envUploadFails [pngA] []
  have h2 := upload_failure_silent_local_fallback envLocalOnly [pngA] []
  refine ⟨h1.1 0 pngA { file := pngA, width := 10, height := 5, aspectRatio := 2 }
      (by decide) (by decide) (by decide) rfl (Or.inr rfl),
    h2.1 0 pngA { file := pngA, width := 10, height := 5, aspectRatio := 2 }
      (by decide) (by decide) (by decide) rfl (Or.inl rfl), ?_⟩
  refine h1.2.2 (fun g => ?_) (fun g url hup => by cases hup)
  exact (isPrefixL_iff "blob:".data ("blob:" ++ g.name).data).mpr
    ⟨g.name.data, by simp⟩

/-- C1: whenever `existingFiles.length + files.length > 12`,
`processAndUploadFiles` rejects the whole batch: the error callback gets
exactly `Maximum 12 files allowed. You can add (12 − E) more files.`, no
file is validated, processed or uploaded (the result does not depend on
any of the environment oracles), the completion callback is never invoked
and no new files are produced; and whenever the completion callback is
invoked, the combined media list stays within 12 entries. -/
theorem batch_cap_enforced (env : Env) (files : List SFile)
    (existingFiles : List MediaFile) :
    ((existingFiles.length : Int) + files.length > 12 →
      (processAndUploadFiles env files existingFiles).errorCall =
        some ("Maximum 12 files allowed. You can add " ++
          toString ((12 : Int) - existingFiles.length) ++ " more files.") ∧
      (processAndUploadFiles env files existingFiles).newFiles = [] ∧
      (processAndUploadFiles env files existingFiles).errors = [] ∧
      (processAndUploadFiles env files existingFiles).completeCall = none ∧
      (∀ env2 : Env, processAndUploadFiles env2 files existingFiles =
        processAndUploadFiles env files existingFiles)) ∧
    (∀ nf, (processAndUploadFiles env files existingFiles).completeCall = some nf →
      existingFiles.length + nf.length ≤ 12) := by
  have hmsg : ("Maximum " ++ toString (12 : Int) ++ " files allowed. You can add ") =
      "Maximum 12 files allowed. You can add " := by decide
  have hfull : ∀ envx : Env, (existingFiles.length : Int) + files.length > 12 →
      processAndUploadFiles envx files existingFiles =
        { newFiles := []
          errors := []
          errorCall := some ("Maximum " ++ toString (12 : Int) ++
            " files allowed. You can add " ++
            toString ((12 : Int) - existingFiles.length) ++ " more files.")
          completeCall := none } := by
    intro envx hcap
    simp only [processAndUploadFiles]
    rw [if_pos hcap]
  constructor
  · intro hcap
    refine ⟨?_, ?_, ?_, ?_, ?_⟩
    · rw [hfull env hcap]
      simp only [String.append_assoc, ← hmsg]
    · rw [hfull env hcap]
    · rw [hfull env hcap]
    · rw [hfull env hcap]
    · intro env2
      rw [hfull env hcap, hfull env2 hcap]
  · intro nf hcc
    by_cases hcap : (existingFiles.length : Int) + files.length > 12
    · rw [hfull env hcap] at hcc
      cases hcc
    · have hlen : existingFiles.length + files.length ≤ 12 := by
        push_cast at hcap
        omega
      simp only [processAndUploadFiles] at hcc
      rw [if_neg hcap] at hcc
      simp only at hcc
      split at hcc
      · obtain rfl := Option.some.inj hcc
        have := processFilesLoop_newFiles_length_le env 0 files
        omega
      · cases hcc

/-- C1, witness: eight existing entries plus a batch of five files is
rejected with the message naming exactly four remaining slots, with no
completion and no new files. -/
theorem batch_cap_enforced_witness :
    (((List.replicate 8 entryA).length : Int) +
      ([pngA, pngA, pngA, pngA, pngA] : List SFile).length > 12) ∧
    (processAndUploadFiles envUploadFails [pngA, pngA, pngA, pngA, pngA]
      (List.replicate 8 entryA)).errorCall =
      some "Maximum 12 files allowed. You can add 4 more files." ∧
    (processAndUploadFiles envUploadFails [pngA, pngA, pngA, pngA, pngA]
      (List.replicate 8 entryA)).newFiles = [] ∧
    (processAndUploadFiles envUploadFails [pngA, pngA, pngA, pngA, pngA]
      (List.replicate 8 entryA)).completeCall = none := by
  have h := batch_cap_enforced envUploadFails [pngA, pngA, pngA, pngA, pngA]
    (List.replicate 8 entryA)
  have hc := h.1 (by decide)
  refine ⟨by decide, ?_, hc.2.1, hc.2.2.2.1⟩
  rw [hc.1]
  decide

/-- C4, counterexample: the caption `"Intro chart"` contains `"chart"`
(case-insensitively) yet `getSectionPlacement` classifies it as
`"introduction"`, not `"results"` — the introduction keywords are tested
first, so "every caption containing 'chart' classifies as 'results'" is
false as stated (and similarly for `"approach"`/`"methodology"`). -/
theorem getSectionPlacement_chart_counterexample :
    hasSubstr (toLowerStr "Intro chart") "chart" = true ∧
    getSectionPlacement "Intro chart" = "introduction" ∧
    getSectionPlacement "Intro chart" ≠ "results" := by
  decide

/-- C4, amended: a caption containing `"chart"` (case-insensitively) but no
introduction keyword (`intro`/`background`/`overview`) and no methodology
keyword (`method`/`approach`/`process`) classifies as `"results"`; a
caption containing `"approach"` but no introduction keyword classifies as
`"methodology"`; and a caption matching no keyword of any bucket
classifies as `"results"`. -/
theorem getSectionPlacement_keyword_buckets (caption : String) :
    (hasSubstr (toLowerStr caption) "chart" = true →
     (hasSubstr (toLowerStr caption) "intro" || hasSubstr (toLowerStr caption) "background" ||
       hasSubstr (toLowerStr caption) "overview") = false →
     (hasSubstr (toLowerStr caption) "method" || hasSubstr (toLowerStr caption) "approach" ||
       hasSubstr (toLowerStr caption) "process") = false →
     getSectionPlacement caption = "results") ∧
    (hasSubstr (toLowerStr caption) "approach" = true →
     (hasSubstr (toLowerStr caption) "intro" || hasSubstr (toLowerStr caption) "background" ||
       hasSubstr (toLowerStr caption) "overview") = false →
     getSectionPlacement caption = "methodology") ∧
    ((hasSubstr (toLowerStr caption) "intro" || hasSubstr (toLowerStr caption) "background" ||
       hasSubstr (toLowerStr caption) "overview") = false →
     (hasSubstr (toLowerStr caption) "method" || hasSubstr (toLowerStr caption) "approach" ||
       hasSubstr (toLowerStr caption) "process") = false →
     (hasSubstr (toLowerStr caption) "result" || hasSubstr (toLowerStr caption) "data" ||
       hasSubstr (toLowerStr caption) "chart" || hasSubstr (toLowerStr caption) "graph") = false →
     getSectionPlacement caption = "results") := by
  refine ⟨fun hc hi hm => ?_, fun ha hi => ?_, fun hi hm hr => ?_⟩
  · simp [getSectionPlacement, hi, hm, hc]
  · have hm : (hasSubstr (toLowerStr caption) "method" ||
        hasSubstr (toLowerStr caption) "approach" ||
        hasSubstr (toLowerStr caption) "process") = true := by
      simp [ha]
    simp [getSectionPlacement, hi, hm]
  · simp [getSectionPlacement, hi, hm, hr]

/-- C4, witness for the amended theorem: concrete captions for each of the
three amended sub-claims. -/
theorem getSectionPlacement_keyword_buckets_witness :
    getSectionPlacement "Sales chart" = "results" ∧
    getSectionPlacement "Our approach" = "methodology" ∧
    getSectionPlacement "miscellaneous" = "results" :=
  ⟨(getSectionPlacement_keyword_buckets "Sales chart").1 (by decide) (by decide) (by decide),
   (getSectionPlacement_keyword_buckets "Our approach").2.1 (by decide) (by decide),
   (getSectionPlacement_keyword_buckets "miscellaneous").2.2 (by decide) (by decide) (by decide)⟩

/-- C10: `getSectionPlacement` is total with range exactly
`{"introduction", "methodology", "results"}`, and the buckets are tested in
order — any introduction keyword wins outright, the methodology keywords
win when no introduction keyword occurs, and in all remaining cases
(results keyword or no keyword) the result is `"results"`. -/
theorem getSectionPlacement_total_and_precedence (caption : String) :
    (getSectionPlacement caption = "introduction" ∨
     getSectionPlacement caption = "methodology" ∨
     getSectionPlacement caption = "results") ∧
    ((hasSubstr (toLowerStr caption) "intro" || hasSubstr (toLowerStr caption) "background" ||
       hasSubstr (toLowerStr caption) "overview") = true →
     getSectionPlacement caption = "introduction") ∧
    ((hasSubstr (toLowerStr caption) "intro" || hasSubstr (toLowerStr caption) "background" ||
       hasSubstr (toLowerStr caption) "overview") = false →
     (hasSubstr (toLowerStr caption) "method" || hasSubstr (toLowerStr caption) "approach" ||
       hasSubstr (toLowerStr caption) "process") = true →
     getSectionPlacement caption = "methodology") ∧
    ((hasSubstr (toLowerStr caption) "intro" || hasSubstr (toLowerStr caption) "background" ||
       hasSubstr (toLowerStr caption) "overview") = false →
     (hasSubstr (toLowerStr caption) "method" || hasSubstr (toLowerStr caption) "approach" ||
       hasSubstr (toLowerStr caption) "process") = false →
     getSectionPlacement caption = "results") := by
  have hI : ∀ _ : (hasSubstr (toLowerStr caption) "intro" ||
        hasSubstr (toLowerStr caption) "background" ||
        hasSubstr (toLowerStr caption) "overview") = true,
      getSectionPlacement caption = "introduction" := fun hi => by
    simp [getSectionPlacement, hi]
  have hM : (hasSubstr (toLowerStr caption) "intro" ||
        hasSubstr (toLowerStr caption) "background" ||
        hasSubstr (toLowerStr caption) "overview") = false →
      (hasSubstr (toLowerStr caption) "method" ||
        hasSubstr (toLowerStr caption) "approach" ||
        hasSubstr (toLowerStr caption) "process") = true →
      getSectionPlacement caption = "methodology" := fun hi hm => by
    simp [getSectionPlacement, hi, hm]
  have hR : (hasSubstr (toLowerStr caption) "intro" ||
        hasSubstr (toLowerStr caption) "background" ||
        hasSubstr (toLowerStr caption) "overview") = false →
      (hasSubstr (toLowerStr caption) "method" ||
        hasSubstr (toLowerStr caption) "approach" ||
        hasSubstr (toLowerStr caption) "process") = false →
      getSectionPlacement caption = "results" := fun hi hm => by
    simp [getSectionPlacement, hi, hm]
  refine ⟨?_, hI, hM, hR⟩
  rcases Bool.eq_false_or_eq_true (hasSubstr (toLowerStr caption) "intro" ||
      hasSubstr (toLowerStr caption) "background" ||
      hasSubstr (toLowerStr caption) "overview") with hi | hi
  · exact Or.inl (hI hi)
  · rcases Bool.eq_false_or_eq_true (hasSubstr (toLowerStr caption) "method" ||
        hasSubstr (toLowerStr caption) "approach" ||
        hasSubstr (toLowerStr caption) "process") with hm | hm
    · exact Or.inr (Or.inl (hM hi hm))
    · exact Or.inr (Or.inr (hR hi hm))

/-- C10, witness: precedence observed on a caption containing keywords of
all three buckets ("background" beats "method" beats "data"). -/
theorem getSectionPlacement_total_and_precedence_witness :
    getSectionPlacement "background method data" = "introduction" ∧
    getSectionPlacement "method data" = "methodology" ∧
    getSectionPlacement "plain data" = "results" :=
  ⟨(getSectionPlacement_total_and_precedence "background method data").2.1 (by decide),
   (getSectionPlacement_total_and_precedence "method data").2.2.1 (by decide) (by decide),
   (getSectionPlacement_total_and_precedence "plain data").2.2.2 (by decide) (by decide)⟩

/-- C9, counterexample: the sanitization `replace(/[^a-z0-9]/gi, '_')`
replaces non-alphanumeric characters by underscores instead of removing
them, so the produced base name is not alphanumeric-only: the title
`"My Project"` yields the PDF file name `"my_project.pdf"`, whose
pre-extension part contains `'_'`. -/
theorem exportFileName_not_alphanumeric_counterexample :
    sanitizeTitle "My Project" = "my_project" ∧
    ¬ ∀ c ∈ (sanitizeTitle "My Project").data, (c.isLower = true ∨ c.isDigit = true) := by
  decide

/-- C9, amended: each export file name is the project title lower-cased
with every character outside ASCII `[a-zA-Z0-9]` replaced by `'_'`
(the PNG name additionally suffixed with `"_gallery"`), so the base name
consists only of lower-case letters, digits and underscores. -/
theorem exportFileNames_sanitized (projectData : ProjectData) (filename : String) :
    pdfFileName projectData = sanitizeTitle projectData.title ++ ".pdf" ∧
    pptxFileName projectData = sanitizeTitle projectData.title ++ ".pptx" ∧
    pngFileName filename = sanitizeTitle filename ++ "_gallery.png" ∧
    (∀ c ∈ (sanitizeTitle projectData.title).data,
      c.isLower = true ∨ c.isDigit = true ∨ c = '_') ∧
    (∀ c ∈ (sanitizeTitle filename).data,
      c.isLower = true ∨ c.isDigit = true ∨ c = '_') := by
  have key : ∀ s : String, ∀ c ∈ (sanitizeTitle s).data,
      c.isLower = true ∨ c.isDigit = true ∨ c = '_' := by
    intro s c hc
    simp only [sanitizeTitle, List.mem_map] at hc
    obtain ⟨c1, ⟨c0, -, rfl⟩, rfl⟩ := hc
    by_cases h0 : c0.isAlphanum = true
    · rw [if_pos h0]
      rcases alphanum_toLower c0 h0 with h | h
      · exact Or.inl h
      · exact Or.inr (Or.inl h)
    · rw [if_neg h0]
      right; right
      decide
  exact ⟨rfl, rfl, rfl, key projectData.title, key filename⟩

/-- C9, witness for the amended theorem: the three names produced for the
title `"My Project 42!"`. -/
theorem exportFileNames_sanitized_witness :
    pdfFileName { title := "My Project 42!", abstract := "", sections := [], citations := [] } =
      "my_project_42_.pdf" ∧
    (∀ c ∈ (sanitizeTitle "My Project 42!").data,
      c.isLower = true ∨ c.isDigit = true ∨ c = '_') := by
  refine ⟨by decide, ?_⟩
  exact (exportFileNames_sanitized
    { title := "My Project 42!", abstract := "", sections := [], citations := [] }
    "My Project 42!").2.2.2.1

/-- C5: dropping a dragged entry (id `dId`, found at index `i`) onto a
different entry (id `tId`, found at index `t`) reorders the list into a
permutation of the original — same entries, same length, same
multiplicities, duplicate-freeness preserved — with the dragged entry
ending up exactly at the drop target's prior index `t`. -/
theorem handleDrop_permutes (files : List MediaFile) (dId tId : String) (i t : Nat)
    (hne : dId ≠ tId)
    (hd : List.findIdx? (fun f => f.id == dId) files = some i)
    (ht : List.findIdx? (fun f => f.id == tId) files = some t) :
    ∃ result, handleDrop files (some dId) tId = some result ∧
      result.Perm files ∧
      result.length = files.length ∧
      (∀ m : MediaFile, result.count m = files.count m) ∧
      (files.Nodup → result.Nodup) ∧
      result[t]? = files[i]? := by
  obtain ⟨hi, hpi, -⟩ := List.findIdx?_eq_some_iff_getElem.mp hd
  obtain ⟨hti, hpt, -⟩ := List.findIdx?_eq_some_iff_getElem.mp ht
  have hbeq : (dId == tId) = false := beq_eq_false_iff_ne.mpr hne
  have hget : files[i]? = some files[i] := List.getElem?_eq_getElem hi
  refine ⟨(files.eraseIdx i).insertIdx t files[i], ?_, ?_, ?_, ?_, ?_, ?_⟩
  · simp only [handleDrop, hbeq, Bool.false_eq_true, if_false, hd, ht, hget]
  · have herase_len : (files.eraseIdx i).length = files.length - 1 :=
      List.length_eraseIdx_of_lt hi
    have htle : t ≤ (files.eraseIdx i).length := by omega
    exact (insertIdx_perm_cons _ t _ htle).trans (cons_eraseIdx_perm files i _ hget)
  · have herase_len : (files.eraseIdx i).length = files.length - 1 :=
      List.length_eraseIdx_of_lt hi
    have htle : t ≤ (files.eraseIdx i).length := by omega
    rw [List.length_insertIdx t _ htle]
    omega
  · intro m
    have herase_len : (files.eraseIdx i).length = files.length - 1 :=
      List.length_eraseIdx_of_lt hi
    have htle : t ≤ (files.eraseIdx i).length := by omega
    exact ((insertIdx_perm_cons _ t _ htle).trans
      (cons_eraseIdx_perm files i _ hget)).count_eq m
  · intro hnd
    have herase_len : (files.eraseIdx i).length = files.length - 1 :=
      List.length_eraseIdx_of_lt hi
    have htle : t ≤ (files.eraseIdx i).length := by omega
    exact (((insertIdx_perm_cons _ t _ htle).trans
      (cons_eraseIdx_perm files i _ hget)).nodup_iff).mpr hnd
  · have herase_len : (files.eraseIdx i).length = files.length - 1 :=
      List.length_eraseIdx_of_lt hi
    have htle : t ≤ (files.eraseIdx i).length := by omega
    have ht2 : t < ((files.eraseIdx i).insertIdx t files[i]).length := by
      rw [List.length_insertIdx t _ htle]
      omega
    rw [List.getElem?_eq_getElem ht2, hget]
    exact congrArg some (List.getElem_insertIdx_self _ _ _ htle)

/-- C5, witness: dragging the entry with id `"C"` (index 2) onto the entry
with id `"A"` (index 0) permutes the three-element list and places the
dragged entry at index 0. -/
theorem handleDrop_permutes_witness :
    ∃ result, handleDrop [entryA, entryB, entryC] (some "C") "A" = some result ∧
      result.Perm [entryA, entryB, entryC] ∧
      result.length = ([entryA, entryB, entryC] : List MediaFile).length ∧
      (∀ m : MediaFile,
        result.count m = ([entryA, entryB, entryC] : List MediaFile).count m) ∧
      (([entryA, entryB, entryC] : List MediaFile).Nodup → result.Nodup) ∧
      result[0]? = ([entryA, entryB, entryC] : List MediaFile)[2]? :=
  handleDrop_permutes [entryA, entryB, entryC] "C" "A" 2 0
    (by decide) (by decide) (by decide)

/-- C6, counterexample: the figure loop of `exportToPDF` wraps each image
in a `try/catch` — a failed `fileToDataURL`/`addImage` skips that figure's
caption — so the export does not emit exactly `N` captions unconditionally:
with two media files and the first file's read failing, the whole document
carries a single figure caption, `Figure 2: beta.png` (numbered by its
original position), not two captions `Figure 1..2`. -/
theorem exportToPDF_exactly_n_counterexample :
    figureBlocks (fun f => !(f.name == "alpha.png")) 0 [entryA, entryB] =
      [PdfBlock.figureCaption "Figure 2: beta.png"] ∧
    ((exportToPDFBlocks (fun f => !(f.name == "alpha.png")) pdSample
      [entryA, entryB]).filter isFigureCaption).length = 1 ∧
    ([entryA, entryB] : List MediaFile).length = 2 := by
  decide

/-- C6, amended: `exportToPDF` emits no `Figures` heading when there are no
media files; with `N ≥ 1` media files it emits the `Figures` heading
followed by one caption `Figure i: <caption-or-filename>` for each media
file (1-based position `i`) whose data-URL read and image embedding
succeed, in original order — in particular exactly `N` captions numbered
`1..N` when every read succeeds; and with a non-empty citation list it
emits a `References` heading followed by the numbered items
`j. <citation>` in list order. -/
theorem exportToPDF_figures_references (readOk : SFile → Bool)
    (projectData : ProjectData) (mediaFiles : List MediaFile) :
    (mediaFiles = [] →
      PdfBlock.figuresHeading ∉ exportToPDFBlocks readOk projectData mediaFiles) ∧
    (mediaFiles ≠ [] →
      (∃ pre post, exportToPDFBlocks readOk projectData mediaFiles =
        pre ++ PdfBlock.figuresHeading :: (figureBlocks readOk 0 mediaFiles ++ post)) ∧
      (figureBlocks readOk 0 mediaFiles).length =
        (mediaFiles.filter (fun m => readOk m.file)).length ∧
      (∀ b ∈ figureBlocks readOk 0 mediaFiles, ∃ (j : Nat) (m : MediaFile),
        mediaFiles[j]? = some m ∧ readOk m.file = true ∧
        b = .figureCaption ("Figure " ++ toString (j + 1) ++ ": " ++
          jsOrElse m.caption m.file.name)) ∧
      ((∀ x ∈ mediaFiles, readOk x.file = true) →
        (figureBlocks readOk 0 mediaFiles).length = mediaFiles.length ∧
        (∀ (j : Nat) (m : MediaFile), mediaFiles[j]? = some m →
          (figureBlocks readOk 0 mediaFiles)[j]? =
            some (.figureCaption ("Figure " ++ toString (j + 1) ++ ": " ++
              jsOrElse m.caption m.file.name))))) ∧
    (projectData.citations ≠ [] →
      (∃ pre2, exportToPDFBlocks readOk projectData mediaFiles =
        pre2 ++ PdfBlock.referencesHeading :: refBlocks 0 projectData.citations) ∧
      (refBlocks 0 projectData.citations).length = projectData.citations.length ∧
      (∀ (j : Nat) (c : String), projectData.citations[j]? = some c →
        (refBlocks 0 projectData.citations)[j]? =
          some (.referenceItem (toString (j + 1) ++ ". " ++ c)))) := by
  refine ⟨?_, ?_, ?_⟩
  · intro hm hmem
    subst hm
    have hrw : exportToPDFBlocks readOk projectData [] =
        ([PdfBlock.titleText projectData.title,
          PdfBlock.abstractText projectData.abstract]
          ++ projectData.sections.flatMap
            (fun s => [PdfBlock.sectionTitle s.title,
              PdfBlock.sectionContent s.content]))
        ++ (if projectData.citations.length > 0 then
            PdfBlock.referencesHeading :: refBlocks 0 projectData.citations
          else []) := by
      simp [exportToPDFBlocks]
    rw [hrw] at hmem
    rcases List.mem_append.mp hmem with hmem1 | hmem2
    · rcases List.mem_append.mp hmem1 with hmemA | hmemB
      · simp at hmemA
      · exact figuresHeading_not_mem_sectionBlocks projectData.sections hmemB
    · by_cases hc : projectData.citations.length > 0
      · rw [if_pos hc] at hmem2
        rcases List.mem_cons.mp hmem2 with h5 | h5
        · cases h5
        · exact figuresHeading_not_mem_refBlocks 0 projectData.citations h5
      · rw [if_neg hc] at hmem2
        cases hmem2
  · intro hm
    have hif : mediaFiles.length > 0 := List.length_pos.mpr hm
    have hblocks : exportToPDFBlocks readOk projectData mediaFiles =
        ([PdfBlock.titleText projectData.title,
          PdfBlock.abstractText projectData.abstract]
          ++ projectData.sections.flatMap
            (fun s => [PdfBlock.sectionTitle s.title,
              PdfBlock.sectionContent s.content]))
        ++ PdfBlock.figuresHeading :: (figureBlocks readOk 0 mediaFiles ++
          (if projectData.citations.length > 0 then
            PdfBlock.referencesHeading :: refBlocks 0 projectData.citations
          else [])) := by
      simp only [exportToPDFBlocks]
      rw [if_pos hif]
      simp [List.append_assoc]
    refine ⟨⟨_, _, hblocks⟩, figureBlocks_length_filter readOk 0 mediaFiles, ?_, ?_⟩
    · intro b hb
      obtain ⟨j, m, hj, hok, hbeq⟩ := figureBlocks_sound readOk 0 mediaFiles b hb
      exact ⟨j, m, hj, hok, by rwa [Nat.zero_add] at hbeq⟩
    · intro hall
      refine ⟨figureBlocks_length_all readOk 0 mediaFiles hall, ?_⟩
      intro j m hj
      have h := figureBlocks_getElem? readOk 0 j mediaFiles m hall hj
      rwa [Nat.zero_add] at h
  · intro hc
    have hcif : projectData.citations.length > 0 := List.length_pos.mpr hc
    have hblocks2 : exportToPDFBlocks readOk projectData mediaFiles =
        ([PdfBlock.titleText projectData.title,
          PdfBlock.abstractText projectData.abstract]
          ++ projectData.sections.flatMap
            (fun s => [PdfBlock.sectionTitle s.title,
              PdfBlock.sectionContent s.content])
          ++ (if mediaFiles.length > 0 then
            PdfBlock.figuresHeading :: figureBlocks readOk 0 mediaFiles
          else []))
        ++ PdfBlock.referencesHeading :: refBlocks 0 projectData.citations := by
      simp only [exportToPDFBlocks]
      rw [if_pos hcif]
    refine ⟨⟨_, hblocks2⟩, refBlocks_length 0 projectData.citations, ?_⟩
    intro j c hj
    have h := refBlocks_getElem? 0 j projectData.citations c hj
    rwa [Nat.zero_add] at h

/-- C6, witness for the amended theorem: with every read succeeding, the
one-entry export emits `Figure 1: alpha.png` (falling back to the file
name) and `1. Smith 2023` after the `References` heading; with no media
files, no `Figures` heading is emitted. -/
theorem exportToPDF_figures_references_witness :
    (figureBlocks (fun _ => true) 0 [entryA])[0]? =
      some (PdfBlock.figureCaption "Figure 1: alpha.png") ∧
    (refBlocks 0 pdSample.citations)[0]? =
      some (PdfBlock.referenceItem "1. Smith 2023") ∧
    PdfBlock.figuresHeading ∉ exportToPDFBlocks (fun _ => true) pdSample [] := by
  have h := exportToPDF_figures_references (fun _ => true) pdSample [entryA]
  have h0 := exportToPDF_figures_references (fun _ => true) pdSample []
  refine ⟨?_, ?_, h0.1 rfl⟩
  · have hcap := ((h.2.1 (by decide)).2.2.2 (fun x _ => rfl)).2 0 entryA (by decide)
    rw [hcap]
    decide
  · have href := (h.2.2 (by decide)).2.2 0 "Smith 2023" (by decide)
    rw [href]
    decide

/-- C8: the media-list components register
`useEffect(() => () => { if (len > 0) cleanupObjectUrls(mediaFiles) }, [mediaFiles])`,
whose cleanup runs on every change of the list, not only at unmount.  On
the trace where entry `A` (local blob `src`, no `cloudUrl`) is added, entry
`B` is added, `A` is removed, and the component unmounts, `A`'s blob URL is
revoked twice (and `B`'s is revoked while `B` is still displayed) — the
claimed exactly-once release is violated by the code. -/
theorem entry_revoked_twice_on_trace :
    (effectRevocations [[], [entryA], [entryA, entryB], [entryB]]).count entryA.src = 2 ∧
    (effectRevocations [[], [entryA], [entryA, entryB], [entryB]]).count entryB.src = 2 ∧
    cleanupObjectUrls (removeFile [entryA, entryB] "A") = [entryB.src] := by
  decide

end EduAI
